import Mathlib

/-!
Verification of the manifest-based asset synchronization engine of the
G2OCustomLauncher repository (src/main.py and src/files_report.py).

Shallow embedding conventions:
* file contents are lists of byte values (`List Nat`);
* the filesystem is a function from paths to entries; a path segment list
  stands for a filesystem path (`Path(a) / b` becomes list append);
* `str(stat.st_mtime)` is kept abstract as the string the platform prints,
  stored alongside the content in `SrcFile`;
* `hashlib.blake2b(digest_size := 32).hexdigest()` is modelled by an abstract
  digest function `List Nat → String` applied to the exact byte sequence the
  code feeds to the hasher via `update`; the collision-freeness of the real
  hash corresponds to instantiating the parameter with an injective function;
* exceptions become explicit control flow exactly where the code catches them.
-/

set_option maxHeartbeats 1000000

namespace G2O

/-- A regular file as the engine sees it: its byte content plus the string
that `str(os.stat(p).st_mtime)` prints for it. -/
structure SrcFile where
  content : List Nat
  mtimeStr : String
deriving DecidableEq

/-- What the filesystem holds at a path: nothing, a file that exists but
cannot be opened for reading, or a readable file. -/
inductive FileEntry
  | absent
  | unreadable
  | readable (f : SrcFile)
deriving DecidableEq

/-- A filesystem path, as its list of segments (`Path(a) / b` is append). -/
abbrev FPath := List String

/-- The filesystem state: what each path currently holds. -/
abbrev FS := FPath → FileEntry

/-- `s.encode()`: the byte values of a string fed to the hasher. -/
def strBytes (s : String) : List Nat :=
  s.data.map Char.toNat

/-- The incremental hash object of `hashlib`: it remembers the concatenation
of all byte strings passed to `update`. -/
structure Hasher where
  fed : List Nat

/-- `hasher.update(bs)` appends the bytes to the fed stream. -/
def Hasher.update (h : Hasher) (bs : List Nat) : Hasher :=
  ⟨h.fed ++ bs⟩

/-- `hasher.hexdigest()`, with the 256-bit blake2b digest (lowercase hex)
modelled by the abstract `digest` parameter applied to the fed stream. -/
def Hasher.hexdigest (h : Hasher) (digest : List Nat → String) : String :=
  digest h.fed

/-- `Path.exists()`: true unless the path holds nothing. -/
def fsExists (fs : FS) (p : FPath) : Bool :=
  match fs p with
  | FileEntry.absent => false
  | _ => true

namespace Main

/-- `calculate_fast_hash` of src/main.py lines 104-126: feed the first 65536
bytes, the last 65536 bytes when the size exceeds 131072, then the decimal
size string and the mtime string; any read failure returns `"error"`. -/
def calculate_fast_hash (digest : List Nat → String) (fs : FS) (filepath : FPath) : String :=
  match fs filepath with
  | FileEntry.readable f =>
      let hasher : Hasher := ⟨[]⟩
      let hasher := hasher.update (f.content.take 65536)
      let hasher :=
        if 131072 < f.content.length then
          hasher.update (f.content.drop (f.content.length - 65536))
        else hasher
      let hasher := hasher.update (strBytes (toString f.content.length))
      let hasher := hasher.update (strBytes f.mtimeStr)
      hasher.hexdigest digest
  | _ => "error"

end Main

namespace FilesReport

/-- `calculate_fast_hash` of src/files_report.py lines 8-30; textually the
same algorithm as the one in src/main.py. -/
def calculate_fast_hash (digest : List Nat → String) (fs : FS) (filepath : FPath) : String :=
  match fs filepath with
  | FileEntry.readable f =>
      let hasher : Hasher := ⟨[]⟩
      let hasher := hasher.update (f.content.take 65536)
      let hasher :=
        if 131072 < f.content.length then
          hasher.update (f.content.drop (f.content.length - 65536))
        else hasher
      let hasher := hasher.update (strBytes (toString f.content.length))
      let hasher := hasher.update (strBytes f.mtimeStr)
      hasher.hexdigest digest
  | _ => "error"

end FilesReport

/-- The byte sequence that `calculate_fast_hash` feeds to the hasher for a
readable file, written as one concatenation. -/
def fastHashData (f : SrcFile) : List Nat :=
  f.content.take 65536
    ++ (if 131072 < f.content.length then f.content.drop (f.content.length - 65536) else [])
    ++ strBytes (toString f.content.length)
    ++ strBytes f.mtimeStr

/-- The file-content reads `calculate_fast_hash` performs, in order: one read
of the first 65536 bytes, plus one read of the last 65536 bytes exactly when
the size exceeds 131072. -/
def contentReads (f : SrcFile) : List (List Nat) :=
  [f.content.take 65536]
    ++ (if 131072 < f.content.length then [f.content.drop (f.content.length - 65536)] else [])

/-- One record of the JSON manifest, as the engine reads it: `path`, `hash`
and `size` (taken from JSON, so the size may be any integer). -/
structure FileInfo where
  path : FPath
  hash : String
  size : Int
deriving DecidableEq

/-- The outcome of opening and JSON-parsing the manifest file: either the
open/parse raises, or it yields an object whose `files` key may be absent. -/
inductive ManifestSource
  | unreadable
  | parsed (filesKey : Option (List FileInfo))

/-- `Downloader.load_manifest` (src/main.py lines 153-164): return the parsed
JSON data, or `None` when reading or parsing raises. -/
def load_manifest : ManifestSource → Option (Option (List FileInfo))
  | ManifestSource.unreadable => none
  | ManifestSource.parsed filesKey => some filesKey

/-- The state accumulated by the `check_files` loop: the list of records to
download plus the two counters the loop maintains. -/
structure CheckResult where
  files_to_download : List FileInfo
  files_requiring_download : Nat
  size_requiring_download : Int
deriving DecidableEq

/-- `Downloader.check_files` (src/main.py lines 166-218): when the manifest
failed to load or its `files` value is missing or empty, report the error and
return no plan; otherwise, for each record in manifest order, enqueue it when
the local file is missing or its fast hash differs from the record's hash. -/
def check_files (digest : List Nat → String) (fs : FS) (download_folder : FPath)
    (src : ManifestSource) : CheckResult :=
  match load_manifest src with
  | none => ⟨[], 0, 0⟩
  | some none => ⟨[], 0, 0⟩
  | some (some files) =>
      if files = [] then ⟨[], 0, 0⟩
      else
        files.foldl (fun st fi =>
          let file_path := download_folder ++ fi.path
          if fsExists fs file_path = false then
            ⟨st.files_to_download ++ [fi], st.files_requiring_download + 1,
              st.size_requiring_download + fi.size⟩
          else
            let current_hash := Main.calculate_fast_hash digest fs file_path
            if current_hash ≠ fi.hash then
              ⟨st.files_to_download ++ [fi], st.files_requiring_download + 1,
                st.size_requiring_download + fi.size⟩
            else st) ⟨[], 0, 0⟩

/-- The planner's per-record decision, named after the spec's SyncAction. -/
inductive SyncDecision
  | fetchMissing
  | fetchMismatch
  | skip
deriving DecidableEq

/-- The decision `check_files` takes for one record: missing file, hash
mismatch (which also covers read failures via the `"error"` sentinel), or
skip. -/
def checkDecision (digest : List Nat → String) (fs : FS) (download_folder : FPath)
    (fi : FileInfo) : SyncDecision :=
  let file_path := download_folder ++ fi.path
  if fsExists fs file_path = false then SyncDecision.fetchMissing
  else if Main.calculate_fast_hash digest fs file_path ≠ fi.hash then SyncDecision.fetchMismatch
  else SyncDecision.skip

/-- `chunk_size` of the local copy loop (src/main.py line 271): 1MB. -/
def chunk_size : Nat := 1048576

/-- The successive chunks `src.read(chunk_size)` returns until empty. -/
def copyChunks (l : List Nat) : List (List Nat) :=
  if h : l = [] then []
  else l.take chunk_size :: copyChunks (l.drop chunk_size)
termination_by l.length
decreasing_by
  simp only [List.length_drop]
  exact Nat.sub_lt (List.length_pos.mpr h) (by decide)

/-- Fault injection for the copy loop: `some k` means the write of chunk
`k+1` raises an exception (so `k` chunks reach the destination); `none`
means the copy completes. A `k` at least the chunk count also means no
fault. -/
def writtenChunks (fault : Option Nat) (chunks : List (List Nat)) : List (List Nat) :=
  match fault with
  | none => chunks
  | some k => chunks.take k

/-- Whether the injected fault actually fires during this copy. -/
def copyFails (fault : Option Nat) (chunks : List (List Nat)) : Bool :=
  match fault with
  | none => false
  | some k => decide (k < chunks.length)

/-- One element of `Downloader.download_queue`: source path, destination
path, and the manifest-declared size (src/main.py `add_download`). -/
structure QueueEntry where
  source : FPath
  destination : FPath
  size : Int
deriving DecidableEq

/-- `Downloader.add_download` (src/main.py lines 233-237) in test mode:
source under the source folder, destination under the download folder. -/
def add_download (source_folder download_folder : FPath) (fi : FileInfo) : QueueEntry :=
  ⟨source_folder ++ fi.path, download_folder ++ fi.path, fi.size⟩

/-- How one queue entry ends inside the `while` body of `process_queue`:
`continue` after a missing source, after a copy exception (partial file
deleted), after failed hash verification (file deleted), or fall-through
after a successful copy and verification. -/
inductive EntryResult
  | sourceMissing
  | copyError
  | verifyFailed
  | committed
deriving DecidableEq

/-- Writing a file at a path (an `open(p, 'wb')` stream's visible state). -/
def fsWrite (fs : FS) (p : FPath) (f : SrcFile) : FS :=
  fun q => if q = p then FileEntry.readable f else fs q

/-- `Path.unlink()`: remove the file at a path. -/
def fsDelete (fs : FS) (p : FPath) : FS :=
  fun q => if q = p then FileEntry.absent else fs q

/-- `dest_path.relative_to(download_folder)` for paths built by
`add_download`: drop the download-folder segments. -/
def relative_to (p root : FPath) : FPath :=
  p.drop root.length

/-- Everything observable about processing one queue entry: the filesystem
afterwards, how the entry ended, the byte counts added to
`downloaded_bytes` chunk by chunk, and the filesystem as seen after each
individual destination write (the mid-copy states). -/
structure EntryOutcome where
  fs : FS
  result : EntryResult
  chunkBytes : List Nat
  fsSteps : List FS

/-- The body of the `while self.download_queue` loop of
`Downloader.process_queue` (src/main.py lines 245-343) for one entry, in
test mode: skip a missing source; stream the source to the destination path
in 1MB chunks (the destination is truncated on open and grows chunk by
chunk); on a copy exception delete the destination and continue; then
recompute the fast hash of the destination, look up the expected hash by
the destination's manifest-relative path, and on any mismatch delete the
destination; otherwise the entry is committed. `destMtime` is the mtime
string the platform gives the freshly written destination file. -/
def processEntry (digest : List Nat → String) (files : List FileInfo)
    (download_folder : FPath) (destMtime : String) (fault : Option Nat)
    (fs : FS) (e : QueueEntry) : EntryOutcome :=
  match fs e.source with
  | FileEntry.absent => ⟨fs, EntryResult.sourceMissing, [], []⟩
  | FileEntry.unreadable => ⟨fsDelete fs e.destination, EntryResult.copyError, [], []⟩
  | FileEntry.readable src =>
      let chunks := copyChunks src.content
      let written := writtenChunks fault chunks
      let contents := List.scanl (fun acc ch => acc ++ ch) [] written
      let steps := contents.map (fun c => fsWrite fs e.destination ⟨c, destMtime⟩)
      let bytes := written.map List.length
      if copyFails fault chunks then
        ⟨fsDelete fs e.destination, EntryResult.copyError, bytes, steps⟩
      else
        let fsDone := fsWrite fs e.destination
          ⟨written.foldl (fun acc ch => acc ++ ch) [], destMtime⟩
        let downloaded_hash := Main.calculate_fast_hash digest fsDone e.destination
        let expected_hash :=
          (files.find? (fun fi =>
            fi.path == relative_to e.destination download_folder)).map FileInfo.hash
        if some downloaded_hash ≠ expected_hash then
          ⟨fsDelete fsDone e.destination, EntryResult.verifyFailed, bytes, steps⟩
        else
          ⟨fsDone, EntryResult.committed, bytes, steps⟩

/-- The running state of `process_queue`: the filesystem, the
`downloaded_bytes` counter, and ghost histories of per-entry results, of
every value `downloaded_bytes` takes, and of every filesystem state after
each write. -/
structure RunState where
  fs : FS
  downloaded : Int
  results : List EntryResult
  byteTrace : List Int
  fsTrace : List FS

/-- One iteration of the `while` loop: process the popped entry and extend
the counters and ghost histories. -/
def processStep (digest : List Nat → String) (files : List FileInfo)
    (download_folder : FPath) (destMtime : String) (faults : FPath → Option Nat)
    (st : RunState) (e : QueueEntry) : RunState :=
  let o := processEntry digest files download_folder destMtime (faults e.source) st.fs e
  { fs := o.fs
    downloaded := st.downloaded + (o.chunkBytes.map Int.ofNat).sum
    results := st.results ++ [o.result]
    byteTrace := st.byteTrace
      ++ (List.scanl (fun d b => d + Int.ofNat b) st.downloaded o.chunkBytes).drop 1
    fsTrace := st.fsTrace ++ o.fsSteps ++ [o.fs] }

/-- The `while self.download_queue` loop driven over the popped entries. -/
def processLoop (digest : List Nat → String) (files : List FileInfo)
    (download_folder : FPath) (destMtime : String) (faults : FPath → Option Nat) :
    RunState → List QueueEntry → RunState
  | st, [] => st
  | st, e :: q =>
      processLoop digest files download_folder destMtime faults
        (processStep digest files download_folder destMtime faults st e) q

/-- Everything `process_queue` leaves behind: final filesystem, final and
declared byte totals, the per-entry results, the traces, and the final UI
strings (the status line is set unconditionally at src/main.py line 349;
the completion line shows the check-phase counters, passed in here as
`frd`/`srd`). -/
structure RunResult where
  fs : FS
  downloaded : Int
  totalBytes : Int
  results : List EntryResult
  byteTrace : List Int
  fsTrace : List FS
  statusText : String
  summaryFiles : Nat
  summarySize : Int

/-- `Downloader.process_queue` (src/main.py lines 239-354): total expected
bytes from the queued manifest sizes, `downloaded_bytes = 0`, process every
entry in order, then report completion unconditionally. -/
def process_queue (digest : List Nat → String) (files : List FileInfo)
    (download_folder : FPath) (destMtime : String) (faults : FPath → Option Nat)
    (frd : Nat) (srd : Int) (fs₀ : FS) (queue : List QueueEntry) : RunResult :=
  let total := (queue.map QueueEntry.size).sum
  let final := processLoop digest files download_folder destMtime faults
    ⟨fs₀, 0, [], [0], [fs₀]⟩ queue
  ⟨final.fs, final.downloaded, total, final.results, final.byteTrace, final.fsTrace,
    "Все файлы успешно загружены", frd, srd⟩

theorem copyChunks_nil : copyChunks [] = [] := by
  unfold copyChunks
  simp

theorem copyChunks_cons (l : List Nat) (h : l ≠ []) :
    copyChunks l = l.take chunk_size :: copyChunks (l.drop chunk_size) := by
  conv_lhs => unfold copyChunks
  simp [h]

theorem copyChunks_small (l : List Nat) (h : l ≠ []) (h2 : l.length ≤ chunk_size) :
    copyChunks l = [l] := by
  rw [copyChunks_cons l h, List.take_of_length_le h2, List.drop_eq_nil_of_le h2, copyChunks_nil]

theorem copyChunks_take_flatten (l : List Nat) (i : Nat) :
    ((copyChunks l).take i).flatten = l.take (i * chunk_size) := by
  induction i generalizing l with
  | zero => simp
  | succ j ih =>
      by_cases h : l = []
      · simp [h, copyChunks_nil]
      · rw [copyChunks_cons l h]
        simp only [List.take_succ_cons, List.flatten_cons, ih (l.drop chunk_size)]
        rw [Nat.succ_mul, Nat.add_comm (j * chunk_size) chunk_size, List.take_add]

theorem copyChunks_flatten (l : List Nat) : (copyChunks l).flatten = l := by
  have H : ∀ n (l : List Nat), l.length ≤ n → (copyChunks l).flatten = l := by
    intro n
    induction n with
    | zero =>
        intro l hl
        have hz : l = [] := List.eq_nil_of_length_eq_zero (Nat.le_zero.mp hl)
        simp [hz, copyChunks_nil]
    | succ m ih =>
        intro l hl
        by_cases h : l = []
        · simp [h, copyChunks_nil]
        · rw [copyChunks_cons l h, List.flatten_cons, ih (l.drop chunk_size) ?_]
          · exact List.take_append_drop _ l
          · simp only [List.length_drop]
            have hc : 1 ≤ chunk_size := by decide
            omega
  exact H l.length l (le_refl _)

theorem copyChunks_length_sum (l : List Nat) :
    ((copyChunks l).map List.length).sum = l.length := by
  rw [← List.length_flatten, copyChunks_flatten]

theorem foldl_append_eq_flatten (L : List (List Nat)) (c : List Nat) :
    L.foldl (fun acc ch => acc ++ ch) c = c ++ L.flatten := by
  induction L generalizing c with
  | nil => simp
  | cons x t ih => simp [ih, List.append_assoc]

theorem mem_scanl_append (L : List (List Nat)) (c x : List Nat)
    (hx : x ∈ List.scanl (fun acc ch => acc ++ ch) c L) :
    ∃ i, x = c ++ (L.take i).flatten := by
  induction L generalizing c with
  | nil =>
      rw [List.scanl_nil] at hx
      exact ⟨0, by simpa using hx⟩
  | cons h t ih =>
      rw [List.scanl_cons] at hx
      rcases List.mem_append.mp hx with hl | hr
      · exact ⟨0, by simpa using hl⟩
      · rcases ih (c ++ h) hr with ⟨i, hi⟩
        exact ⟨i + 1, by simp [hi, List.append_assoc]⟩

theorem map_ofNat_sum_nonneg (l : List Nat) : 0 ≤ (l.map Int.ofNat).sum := by
  induction l with
  | nil => simp
  | cons a t ih => simpa using add_nonneg (Int.ofNat_nonneg a) ih

theorem mem_scanl_add_bound (l : List Nat) (a v : Int)
    (hv : v ∈ List.scanl (fun d b => d + Int.ofNat b) a l) :
    a ≤ v ∧ v ≤ a + (l.map Int.ofNat).sum := by
  induction l generalizing a with
  | nil =>
      rw [List.scanl_nil] at hv
      simp only [List.mem_singleton] at hv
      simp [hv]
  | cons b t ih =>
      rw [List.scanl_cons] at hv
      rcases List.mem_append.mp hv with hl | hr
      · simp only [List.mem_singleton] at hl
        subst hl
        exact ⟨le_refl v, le_add_of_nonneg_right (map_ofNat_sum_nonneg _)⟩
      · rcases ih (a + Int.ofNat b) hr with ⟨h1, h2⟩
        constructor
        · exact le_trans (le_add_of_nonneg_right (Int.ofNat_nonneg b)) h1
        · simpa [add_assoc] using h2

theorem writtenChunks_sum_le (fault : Option Nat) (l : List Nat) :
    (((writtenChunks fault (copyChunks l)).map List.length).sum) ≤ l.length := by
  cases fault with
  | none => simp [writtenChunks, copyChunks_length_sum]
  | some k =>
      simp only [writtenChunks]
      calc (((copyChunks l).take k).map List.length).sum
          ≤ (((copyChunks l).take k).map List.length).sum
            + (((copyChunks l).drop k).map List.length).sum := Nat.le_add_right _ _
        _ = ((copyChunks l).map List.length).sum := by
            rw [← List.sum_append, ← List.map_append, List.take_append_drop]
        _ = l.length := copyChunks_length_sum l

theorem writtenChunks_mem_take (fault : Option Nat) (l : List Nat) (i : Nat) :
    ∃ k, ((writtenChunks fault (copyChunks l)).take i).flatten = l.take k := by
  cases fault with
  | none => exact ⟨i * chunk_size, copyChunks_take_flatten l i⟩
  | some m =>
      refine ⟨(min i m) * chunk_size, ?_⟩
      simp only [writtenChunks, List.take_take]
      exact copyChunks_take_flatten l (min i m)

theorem writtenChunks_flatten_of_ok (fault : Option Nat) (chunks : List (List Nat))
    (h : copyFails fault chunks = false) :
    writtenChunks fault chunks = chunks := by
  cases fault with
  | none => rfl
  | some k =>
      simp only [copyFails, decide_eq_false_iff_not, Nat.not_lt] at h
      exact List.take_of_length_le h

theorem calculate_fast_hash_readable (digest : List Nat → String) (fs : FS) (p : FPath)
    (f : SrcFile) (h : fs p = FileEntry.readable f) :
    Main.calculate_fast_hash digest fs p = digest (fastHashData f) := by
  unfold Main.calculate_fast_hash
  rw [h]
  by_cases hc : 131072 < f.content.length <;>
    simp [hc, Hasher.update, Hasher.hexdigest, fastHashData, List.append_assoc]

theorem fastHashData_eq_reads (f : SrcFile) :
    fastHashData f
      = (contentReads f).flatten ++ strBytes (toString f.content.length) ++ strBytes f.mtimeStr := by
  by_cases hc : 131072 < f.content.length <;>
    simp [fastHashData, contentReads, hc, List.append_assoc]

theorem processLoop_results (digest : List Nat → String) (files : List FileInfo)
    (df : FPath) (mt : String) (faults : FPath → Option Nat) (q : List QueueEntry) :
    ∀ st : RunState,
      (processLoop digest files df mt faults st q).results
        = st.results
            ++ (processLoop digest files df mt faults ⟨st.fs, 0, [], [0], [st.fs]⟩ q).results := by
  induction q with
  | nil => intro st; simp [processLoop]
  | cons e t ih =>
      intro st
      simp only [processLoop]
      rw [ih (processStep digest files df mt faults st e),
        ih (processStep digest files df mt faults ⟨st.fs, 0, [], [0], [st.fs]⟩ e)]
      simp [processStep, List.append_assoc]

theorem processLoop_results_length (digest : List Nat → String) (files : List FileInfo)
    (df : FPath) (mt : String) (faults : FPath → Option Nat) (q : List QueueEntry) :
    ∀ st : RunState,
      (processLoop digest files df mt faults st q).results.length
        = st.results.length + q.length := by
  induction q with
  | nil => intro st; simp [processLoop]
  | cons e t ih =>
      intro st
      simp only [processLoop, ih (processStep digest files df mt faults st e)]
      simp [processStep]
      omega

theorem processLoop_downloaded_mono (digest : List Nat → String) (files : List FileInfo)
    (df : FPath) (mt : String) (faults : FPath → Option Nat) (q : List QueueEntry) :
    ∀ st : RunState, st.downloaded ≤ (processLoop digest files df mt faults st q).downloaded := by
  induction q with
  | nil => intro st; simp [processLoop]
  | cons e t ih =>
      intro st
      simp only [processLoop]
      refine le_trans ?_ (ih (processStep digest files df mt faults st e))
      simp only [processStep]
      exact le_add_of_nonneg_right (map_ofNat_sum_nonneg _)

theorem processLoop_byteTrace_bound (digest : List Nat → String) (files : List FileInfo)
    (df : FPath) (mt : String) (faults : FPath → Option Nat) (q : List QueueEntry) :
    ∀ st : RunState, (∀ v ∈ st.byteTrace, 0 ≤ v ∧ v ≤ st.downloaded) → 0 ≤ st.downloaded →
      ∀ v ∈ (processLoop digest files df mt faults st q).byteTrace,
        0 ≤ v ∧ v ≤ (processLoop digest files df mt faults st q).downloaded := by
  induction q with
  | nil => intro st h _; simpa [processLoop] using h
  | cons e t ih =>
      intro st hst hd
      simp only [processLoop]
      apply ih
      · intro v hv
        simp only [processStep, List.mem_append] at hv
        rcases hv with h1 | h2
        · rcases hst v h1 with ⟨hv0, hvd⟩
          exact ⟨hv0, le_trans hvd (le_add_of_nonneg_right (map_ofNat_sum_nonneg _))⟩
        · have h2m := List.mem_of_mem_drop h2
          rcases mem_scanl_add_bound _ _ _ h2m with ⟨ha, hb⟩
          exact ⟨le_trans hd ha, hb⟩
      · exact le_trans hd (le_add_of_nonneg_right (map_ofNat_sum_nonneg _))

theorem check_foldl (digest : List Nat → String) (fs : FS) (df : FPath)
    (files : List FileInfo) :
    ∀ acc : CheckResult,
      (files.foldl (fun st fi =>
          let file_path := df ++ fi.path
          if fsExists fs file_path = false then
            ⟨st.files_to_download ++ [fi], st.files_requiring_download + 1,
              st.size_requiring_download + fi.size⟩
          else
            let current_hash := Main.calculate_fast_hash digest fs file_path
            if current_hash ≠ fi.hash then
              ⟨st.files_to_download ++ [fi], st.files_requiring_download + 1,
                st.size_requiring_download + fi.size⟩
            else st) acc).files_to_download
        = acc.files_to_download
            ++ files.filter (fun g => decide (checkDecision digest fs df g ≠ SyncDecision.skip)) := by
  induction files with
  | nil => intro acc; simp
  | cons fi t ih =>
      intro acc
      simp only [List.foldl_cons]
      split
      case isTrue hex =>
        rw [ih]
        have hdec : checkDecision digest fs df fi = SyncDecision.fetchMissing := by
          simp [checkDecision, hex]
        simp [hdec, List.filter_cons, List.append_assoc]
      case isFalse hex =>
        split
        case isTrue hh =>
          rw [ih]
          have hdec : checkDecision digest fs df fi = SyncDecision.fetchMismatch := by
            simp [checkDecision, hex, hh]
          simp [hdec, List.filter_cons, List.append_assoc]
        case isFalse hh =>
          rw [ih]
          have hh2 := not_not.mp hh
          have hdec : checkDecision digest fs df fi = SyncDecision.skip := by
            simp [checkDecision, hex, hh2]
          simp [hdec, List.filter_cons]

/-- A digest stand-in whose value is irrelevant to the statement using it. -/
def dig0 : List Nat → String := fun _ => ""

/-- A filesystem with no files at all. -/
def fsEmpty : FS := fun _ => FileEntry.absent

/-- A filesystem whose only entry is an unreadable file at dl/a. -/
def fsUnreadable : FS := fun p => if p = ["dl", "a"] then FileEntry.unreadable else FileEntry.absent

/-- A manifest record whose expected fingerprint is the string "error". -/
def recError : FileInfo := ⟨["a"], "error", 1⟩

/-- A manifest record with an empty path, a negative size and a fingerprint
that is not 64 hex characters. -/
def recBad : FileInfo := ⟨[], "zz", -5⟩

/-- A one-byte readable file used to instantiate fingerprinting theorems. -/
def fsOne : FS := fun p => if p = ["x"] then FileEntry.readable ⟨[5], "9.0"⟩ else FileEntry.absent

/-- A 65537-byte file: larger than one 65536-byte read, but not above the
131072-byte threshold that triggers the tail read. -/
def bigSmallFile : SrcFile := ⟨List.replicate 65537 0, "0"⟩

/-- C3: for every readable file, the fingerprint equals the (abstract 256-bit
lowercase-hex) digest of: the first 65536 bytes, then the last 65536 bytes
exactly when the size exceeds 131072, then the decimal size string, then the
mtime string; and the computation of src/main.py is identical to the one of
src/files_report.py. -/
theorem C3_fingerprint (digest : List Nat → String) (fs : FS) (p : FPath) (f : SrcFile)
    (h : fs p = FileEntry.readable f) :
    Main.calculate_fast_hash digest fs p = digest (fastHashData f)
  ∧ FilesReport.calculate_fast_hash digest fs p = digest (fastHashData f)
  ∧ Main.calculate_fast_hash = FilesReport.calculate_fast_hash := by
  refine ⟨calculate_fast_hash_readable digest fs p f h, ?_, rfl⟩
  have hsame : FilesReport.calculate_fast_hash = Main.calculate_fast_hash := rfl
  rw [hsame]
  exact calculate_fast_hash_readable digest fs p f h

/-- Witness for C3 at a concrete one-byte file. -/
theorem C3_fingerprint_witness :
    Main.calculate_fast_hash dig0 fsOne ["x"] = dig0 (fastHashData ⟨[5], "9.0"⟩) :=
  (C3_fingerprint dig0 fsOne ["x"] ⟨[5], "9.0"⟩ (by simp [fsOne])).1

/-- C4 fails as stated: a 65537-byte file has size at most 131072, yet
fingerprinting does not read its entire content (only the first 65536
bytes). -/
theorem C4_counterexample :
    bigSmallFile.content.length ≤ 131072
  ∧ (contentReads bigSmallFile).flatten ≠ bigSmallFile.content := by
  have hlen : bigSmallFile.content.length = 65537 := by
    show (List.replicate 65537 (0:Nat)).length = 65537
    rw [List.length_replicate]
  constructor
  · rw [hlen]; norm_num
  · have hlt : ¬ 131072 < bigSmallFile.content.length := by rw [hlen]; norm_num
    have hr : (contentReads bigSmallFile).flatten = bigSmallFile.content.take 65536 := by
      simp only [contentReads, hlt, if_false, List.flatten_cons, List.flatten_nil,
        List.append_nil, List.nil_append]
    intro heq
    rw [hr] at heq
    have hl2 := congrArg List.length heq
    rw [List.length_take, hlen] at hl2
    norm_num at hl2

/-- C4 (amended): fingerprinting reads the entire content iff the size is at
most 65536; it performs two content reads iff the size exceeds 131072 (and
one read otherwise, so a file in (65536, 131072] contributes only its first
65536 bytes); the digest input is exactly these reads plus the size and
mtime strings. -/
theorem C4_reads (f : SrcFile) :
    ((contentReads f).flatten = f.content ↔ f.content.length ≤ 65536)
  ∧ (contentReads f).length = (if 131072 < f.content.length then 2 else 1)
  ∧ ∀ digest : List Nat → String,
      digest (fastHashData f)
        = digest ((contentReads f).flatten
            ++ strBytes (toString f.content.length) ++ strBytes f.mtimeStr) := by
  refine ⟨?_, ?_, fun digest => congrArg digest (fastHashData_eq_reads f)⟩
  · by_cases hc : 131072 < f.content.length
    · simp only [contentReads, hc, if_true]
      constructor
      · intro heq
        have hlen := congrArg List.length heq
        simp only [List.flatten_cons, List.flatten_nil, List.append_nil, List.length_append,
          List.length_take, List.length_drop, List.cons_append, List.nil_append] at hlen
        omega
      · intro hle
        omega
    · simp only [contentReads, hc, if_false]
      simp [List.take_eq_self_iff]
  · by_cases hc : 131072 < f.content.length <;> simp [contentReads, hc]

/-- C5 fails as stated: a record whose local file exists but cannot be read
(fingerprinting fails) is skipped, not marked for fetch, because the code
compares the sentinel string "error" against the record's fingerprint and
this manifest declares the fingerprint "error". -/
theorem C5_counterexample :
    fsUnreadable (["dl"] ++ recError.path) = FileEntry.unreadable
  ∧ (check_files dig0 fsUnreadable ["dl"]
      (ManifestSource.parsed (some [recError]))).files_to_download = [] := by
  constructor
  · rfl
  · rfl

/-- C5 (amended): check_files produces exactly one decision per manifest
record in manifest order (the download list is the manifest-order filter of
the fetch decisions); a missing file gives a Missing fetch; an unreadable
file compares the sentinel "error" against the record's fingerprint, so it
is fetched exactly when the record's fingerprint is not the string "error";
a readable file is fetched exactly when its fingerprint mismatches. -/
theorem C5_planner (digest : List Nat → String) (fs : FS) (df : FPath)
    (files : List FileInfo) (fi : FileInfo) :
    (check_files digest fs df (ManifestSource.parsed (some files))).files_to_download
        = files.filter (fun g => decide (checkDecision digest fs df g ≠ SyncDecision.skip))
  ∧ checkDecision digest fs df fi
      = (match fs (df ++ fi.path) with
         | FileEntry.absent => SyncDecision.fetchMissing
         | FileEntry.unreadable =>
             if "error" = fi.hash then SyncDecision.skip else SyncDecision.fetchMismatch
         | FileEntry.readable f =>
             if digest (fastHashData f) = fi.hash then SyncDecision.skip
             else SyncDecision.fetchMismatch) := by
  constructor
  · by_cases hnil : files = []
    · simp [check_files, load_manifest, hnil]
    · simp only [check_files, load_manifest, hnil, if_false]
      rw [check_foldl digest fs df files ⟨[], 0, 0⟩]
      rfl
  · rcases hfs : fs (df ++ fi.path) with _ | _ | f
    · simp [checkDecision, fsExists, hfs]
    · have hcalc : Main.calculate_fast_hash digest fs (df ++ fi.path) = "error" := by
        unfold Main.calculate_fast_hash
        rw [hfs]
      by_cases heq : "error" = fi.hash
      · simp [checkDecision, fsExists, hfs, hcalc, heq]
      · simp [checkDecision, fsExists, hfs, hcalc, heq, Ne.symm heq]
    · have hcalc := calculate_fast_hash_readable digest fs (df ++ fi.path) f hfs
      by_cases heq : digest (fastHashData f) = fi.hash
      · simp [checkDecision, fsExists, hfs, hcalc, heq]
      · simp [checkDecision, fsExists, hfs, hcalc, heq]

/-- C7 fails as stated: a manifest record with an empty path, a negative
size and a fingerprint of the wrong length is accepted — loading succeeds
and the planner happily schedules the record — instead of failing with a
malformed-manifest error. -/
theorem C7_counterexample :
    load_manifest (ManifestSource.parsed (some [recBad])) = some (some [recBad])
  ∧ (check_files dig0 fsEmpty ["dl"]
      (ManifestSource.parsed (some [recBad]))).files_to_download = [recBad]
  ∧ recBad.path = [] ∧ recBad.size < 0 ∧ recBad.hash.length ≠ 64 := by
  refine ⟨rfl, rfl, rfl, by decide, by decide⟩

theorem map_ofNat_sum (l : List Nat) : (l.map Int.ofNat).sum = Int.ofNat l.sum := by
  induction l with
  | nil => rfl
  | cons a t ih => simp [ih]

theorem processEntry_chunkBytes (digest : List Nat → String) (files : List FileInfo)
    (df : FPath) (mt : String) (fault : Option Nat) (fs : FS) (e : QueueEntry) (src : SrcFile)
    (h : fs e.source = FileEntry.readable src) :
    (processEntry digest files df mt fault fs e).chunkBytes
      = (writtenChunks fault (copyChunks src.content)).map List.length := by
  simp only [processEntry, h]
  split
  · rfl
  · split <;> rfl

theorem processEntry_fsSteps (digest : List Nat → String) (files : List FileInfo)
    (df : FPath) (mt : String) (fault : Option Nat) (fs : FS) (e : QueueEntry) (src : SrcFile)
    (h : fs e.source = FileEntry.readable src) :
    (processEntry digest files df mt fault fs e).fsSteps
      = (List.scanl (fun acc ch => acc ++ ch) [] (writtenChunks fault (copyChunks src.content))).map
          (fun c => fsWrite fs e.destination ⟨c, mt⟩) := by
  simp only [processEntry, h]
  split
  · rfl
  · split <;> rfl

theorem processEntry_verifyFailed (digest : List Nat → String) (files : List FileInfo)
    (df : FPath) (mt : String) (fault : Option Nat) (fs : FS) (e : QueueEntry) (src : SrcFile)
    (h : fs e.source = FileEntry.readable src)
    (hcf : copyFails fault (copyChunks src.content) = false)
    (hv : some (Main.calculate_fast_hash digest
            (fsWrite fs e.destination ⟨src.content, mt⟩) e.destination)
          ≠ (files.find? (fun fi =>
              fi.path == relative_to e.destination df)).map FileInfo.hash) :
    (processEntry digest files df mt fault fs e).result = EntryResult.verifyFailed
  ∧ (processEntry digest files df mt fault fs e).fs e.destination = FileEntry.absent := by
  have hwr := writtenChunks_flatten_of_ok fault (copyChunks src.content) hcf
  simp only [processEntry, h, hcf, Bool.false_eq_true, if_false, hwr,
    foldl_append_eq_flatten, List.nil_append, copyChunks_flatten]
  rw [if_pos hv]
  exact ⟨rfl, by simp [fsDelete]⟩

theorem processEntry_committed (digest : List Nat → String) (files : List FileInfo)
    (df : FPath) (mt : String) (fault : Option Nat) (fs : FS) (e : QueueEntry) (src : SrcFile)
    (h : fs e.source = FileEntry.readable src)
    (hcf : copyFails fault (copyChunks src.content) = false)
    (hv : some (Main.calculate_fast_hash digest
            (fsWrite fs e.destination ⟨src.content, mt⟩) e.destination)
          = (files.find? (fun fi =>
              fi.path == relative_to e.destination df)).map FileInfo.hash) :
    (processEntry digest files df mt fault fs e).result = EntryResult.committed
  ∧ (processEntry digest files df mt fault fs e).fs e.destination
      = FileEntry.readable ⟨src.content, mt⟩ := by
  have hwr := writtenChunks_flatten_of_ok fault (copyChunks src.content) hcf
  simp only [processEntry, h, hcf, Bool.false_eq_true, if_false, hwr,
    foldl_append_eq_flatten, List.nil_append, copyChunks_flatten]
  rw [if_neg (not_not_intro hv)]
  exact ⟨rfl, by simp [fsWrite]⟩

theorem process_queue_single (digest : List Nat → String) (files : List FileInfo)
    (df : FPath) (mt : String) (faults : FPath → Option Nat) (frd : Nat) (srd : Int)
    (fs₀ : FS) (e : QueueEntry) :
    (process_queue digest files df mt faults frd srd fs₀ [e]).results
        = [(processEntry digest files df mt (faults e.source) fs₀ e).result]
  ∧ (process_queue digest files df mt faults frd srd fs₀ [e]).fs
        = (processEntry digest files df mt (faults e.source) fs₀ e).fs := by
  exact ⟨rfl, rfl⟩

/-- A small readable source file whose mtime string is "100.0". -/
def srcC2 : SrcFile := ⟨[1, 2, 3], "100.0"⟩

/-- A filesystem holding only srcC2 at sf/a. -/
def fsC2 : FS := fun p => if p = ["sf", "a"] then FileEntry.readable srcC2 else FileEntry.absent

/-- The queue entry copying sf/a to dl/a with its true size 3. -/
def eC2 : QueueEntry := ⟨["sf", "a"], ["dl", "a"], 3⟩

/-- An injective digest stand-in: the decimal rendering of the fed bytes
(standing in for the practically injective 256-bit blake2b hex digest). -/
def digA : List Nat → String := fun l => toString l

/-- The manifest record for srcC2, fingerprinted exactly from its source
content, size and mtime — the record "matches" the source. -/
def recC2 : FileInfo := ⟨["a"], digA (fastHashData srcC2), 3⟩

/-- A manifest record whose fingerprint cannot match dig0's output. -/
def recMismatch : FileInfo := ⟨["a"], "deadbeef", 3⟩

/-- A queue entry whose source path holds nothing. -/
def eMissing : QueueEntry := ⟨["sf", "zz"], ["dl", "zz"], 4⟩

/-- A queue entry whose source is the unreadable file of fsUnreadable. -/
def eUnread : QueueEntry := ⟨["dl", "a"], ["dl", "b"], 1⟩

theorem fastHashData_small (f : SrcFile) (h : f.content.length ≤ 65536) :
    fastHashData f = f.content ++ strBytes (toString f.content.length) ++ strBytes f.mtimeStr := by
  have hlt : ¬ 131072 < f.content.length := by omega
  rw [fastHashData, List.take_of_length_le (le_trans h (by norm_num)), if_neg hlt]
  simp [List.append_assoc]

/-- C10: whenever a queued local copy raises an error mid-stream, or the
post-download fingerprint verification fails, the destination file is
deleted before the next queue entry is processed — these two failure modes
never leave a file at the destination path. -/
theorem C10_cleanup (digest : List Nat → String) (files : List FileInfo) (df : FPath)
    (mt : String) (fault : Option Nat) (fs : FS) (e : QueueEntry)
    (h : (processEntry digest files df mt fault fs e).result = EntryResult.copyError
       ∨ (processEntry digest files df mt fault fs e).result = EntryResult.verifyFailed) :
    (processEntry digest files df mt fault fs e).fs e.destination = FileEntry.absent := by
  rcases hsrc : fs e.source with _ | _ | src
  · rcases h with h | h <;> simp [processEntry, hsrc] at h
  · simp [processEntry, hsrc, fsDelete]
  · simp only [processEntry, hsrc] at h ⊢
    by_cases hcf : copyFails fault (copyChunks src.content) = true
    · simp only [hcf, if_true]
      simp [fsDelete]
    · simp only [hcf, Bool.false_eq_true, if_false] at h ⊢
      split at h
      next hv =>
        rw [if_pos hv]
        simp [fsDelete]
      next hv =>
        rw [if_neg hv]
        rcases h with h | h <;> simp at h

/-- Witness for C10: an unreadable source makes the copy raise on open, and
the previously existing destination file ends deleted. -/
theorem C10_cleanup_witness :
    (processEntry dig0 [] ["dl"] "t" none fsUnreadable eUnread).fs ["dl", "b"]
      = FileEntry.absent :=
  C10_cleanup dig0 [] ["dl"] "t" none fsUnreadable eUnread (Or.inl (by rfl))

/-- C6 fails as stated: a fetched file whose post-transfer fingerprint
mismatches is attempted exactly once — the queue records a single
verify-failed result, the destination is deleted, and the final status
reports unconditional success instead of a session-level failure; no retry
and no backoff exist. -/
theorem C6_counterexample :
    (process_queue dig0 [recMismatch] ["dl"] "200.0" (fun _ => none) 1 3 fsC2 [eC2]).results
        = [EntryResult.verifyFailed]
  ∧ (process_queue dig0 [recMismatch] ["dl"] "200.0" (fun _ => none) 1 3 fsC2 [eC2]).statusText
      = "Все файлы успешно загружены"
  ∧ (process_queue dig0 [recMismatch] ["dl"] "200.0" (fun _ => none) 1 3 fsC2 [eC2]).fs ["dl", "a"]
      = FileEntry.absent := by
  have hsrc : fsC2 eC2.source = FileEntry.readable srcC2 := rfl
  have hpe := processEntry_verifyFailed dig0 [recMismatch] ["dl"] "200.0" none fsC2 eC2 srcC2
    hsrc rfl (by decide)
  have hsingle := process_queue_single dig0 [recMismatch] ["dl"] "200.0" (fun _ => none) 1 3 fsC2 eC2
  refine ⟨?_, rfl, ?_⟩
  · rw [hsingle.1, hpe.1]
  · rw [hsingle.2]
    exact hpe.2

/-- C6 (amended): every queue entry is processed exactly once — the result
list has one entry per queued file, whatever the outcomes — and the final
status line is the unconditional success message; a verification failure is
never retried and never recorded as a session-level failure. -/
theorem C6_single_attempt (digest : List Nat → String) (files : List FileInfo)
    (df : FPath) (mt : String) (faults : FPath → Option Nat) (frd : Nat) (srd : Int)
    (fs₀ : FS) (queue : List QueueEntry) :
    (process_queue digest files df mt faults frd srd fs₀ queue).results.length = queue.length
  ∧ (process_queue digest files df mt faults frd srd fs₀ queue).statusText
      = "Все файлы успешно загружены" := by
  constructor
  · show (processLoop digest files df mt faults ⟨fs₀, 0, [], [0], [fs₀]⟩ queue).results.length = _
    rw [processLoop_results_length]
    simp
  · rfl

/-- C8 fails as stated: when the only queued file's source is missing, the
file is skipped, yet nothing records the failure — the final status claims
unconditional success and the summary carries only the check-phase
counters. -/
theorem C8_counterexample :
    (process_queue dig0 [] ["dl"] "t" (fun _ => none) 0 0 fsEmpty [eMissing]).results
        = [EntryResult.sourceMissing]
  ∧ (process_queue dig0 [] ["dl"] "t" (fun _ => none) 0 0 fsEmpty [eMissing]).statusText
      = "Все файлы успешно загружены"
  ∧ (process_queue dig0 [] ["dl"] "t" (fun _ => none) 0 0 fsEmpty [eMissing]).fs ["dl", "zz"]
      = FileEntry.absent := by
  exact ⟨rfl, rfl, rfl⟩

/-- C8 (amended): per-file errors indeed never abort the session — a missing
source yields one sourceMissing result and every remaining queued file is
still processed exactly as it would have been — but failures are not
recorded or surfaced: the final status line is the unconditional success
message and the completion summary repeats the check-phase counters. -/
theorem C8_no_abort (digest : List Nat → String) (files : List FileInfo)
    (df : FPath) (mt : String) (faults : FPath → Option Nat) (frd : Nat) (srd : Int)
    (fs₀ : FS) (e : QueueEntry) (q : List QueueEntry)
    (h : fs₀ e.source = FileEntry.absent) :
    (process_queue digest files df mt faults frd srd fs₀ (e :: q)).results
        = EntryResult.sourceMissing
            :: (process_queue digest files df mt faults frd srd fs₀ q).results
  ∧ (process_queue digest files df mt faults frd srd fs₀ (e :: q)).statusText
      = "Все файлы успешно загружены"
  ∧ (process_queue digest files df mt faults frd srd fs₀ (e :: q)).summaryFiles = frd
  ∧ (process_queue digest files df mt faults frd srd fs₀ (e :: q)).summarySize = srd := by
  refine ⟨?_, rfl, rfl, rfl⟩
  show (processLoop digest files df mt faults ⟨fs₀, 0, [], [0], [fs₀]⟩ (e :: q)).results = _
  have hentry : processEntry digest files df mt (faults e.source) fs₀ e
      = ⟨fs₀, EntryResult.sourceMissing, [], []⟩ := by
    simp [processEntry, h]
  simp only [processLoop]
  rw [processLoop_results]
  simp only [processStep, hentry]
  simp
  rfl

/-- Witness for C8 at a concrete one-entry queue with a missing source. -/
theorem C8_no_abort_witness :
    (process_queue dig0 [] ["dl"] "t" (fun _ => none) 7 9 fsEmpty [eMissing]).results
      = EntryResult.sourceMissing
          :: (process_queue dig0 [] ["dl"] "t" (fun _ => none) 7 9 fsEmpty []).results :=
  (C8_no_abort dig0 [] ["dl"] "t" (fun _ => none) 7 9 fsEmpty eMissing [] rfl).1

/-- C7 (amended): manifest loading fails only when the file cannot be read
or parsed; a missing `files` key (like a load failure or an empty list)
yields an empty plan and an error status, which is the only malformed case
handled; individual records are never validated — any path, size and
fingerprint string are accepted and planned normally. -/
theorem C7_manifest (digest : List Nat → String) (fs : FS) (df : FPath)
    (files : List FileInfo) :
    load_manifest ManifestSource.unreadable = none
  ∧ (check_files digest fs df ManifestSource.unreadable).files_to_download = []
  ∧ (check_files digest fs df (ManifestSource.parsed none)).files_to_download = []
  ∧ (check_files digest fs df (ManifestSource.parsed (some files))).files_to_download
      = files.filter (fun g => decide (checkDecision digest fs df g ≠ SyncDecision.skip)) := by
  refine ⟨rfl, rfl, rfl, ?_⟩
  by_cases hnil : files = []
  · simp [check_files, load_manifest, hnil]
  · simp only [check_files, load_manifest, hnil, if_false]
    rw [check_foldl digest fs df files ⟨[], 0, 0⟩]
    rfl

/-- A five-byte readable source declared with manifest size 0. -/
def srcFive : SrcFile := ⟨[1, 2, 3, 4, 5], "7.0"⟩

/-- A filesystem holding only srcFive at s/a. -/
def fsFive : FS := fun p => if p = ["s", "a"] then FileEntry.readable srcFive else FileEntry.absent

/-- The queue entry for srcFive whose manifest-declared size is 0. -/
def eFive : QueueEntry := ⟨["s", "a"], ["dl", "a"], 0⟩

/-- C9 fails as stated: with a declared manifest size of 0 but an actual
source of 5 bytes, the transferred-byte counter reaches 5 while the total
expected bytes are 0 — the counter accumulates actual bytes and no clamping
to the declared total exists. -/
theorem C9_counterexample :
    (process_queue dig0 [] ["dl"] "9.0" (fun _ => none) 0 0 fsFive [eFive]).totalBytes = 0
  ∧ (5:Int) ∈ (process_queue dig0 [] ["dl"] "9.0" (fun _ => none) 0 0 fsFive [eFive]).byteTrace
  ∧ ¬ ((5:Int)
        ≤ (process_queue dig0 [] ["dl"] "9.0" (fun _ => none) 0 0 fsFive [eFive]).totalBytes) := by
  have hch : copyChunks srcFive.content = [[1, 2, 3, 4, 5]] :=
    copyChunks_small [1, 2, 3, 4, 5] (by decide) (by decide)
  have hcb : (processEntry dig0 [] ["dl"] "9.0"
        ((fun (_ : FPath) => (none : Option Nat)) eFive.source) fsFive eFive).chunkBytes
      = [5] := by
    rw [processEntry_chunkBytes _ _ _ _ _ _ _ srcFive rfl]
    show ((copyChunks srcFive.content).map List.length) = [5]
    rw [hch]
    rfl
  have hbt : (process_queue dig0 [] ["dl"] "9.0" (fun _ => none) 0 0 fsFive [eFive]).byteTrace
      = [0, 5] := by
    show ([0] ++ (List.scanl (fun d b => d + Int.ofNat b) 0
        (processEntry dig0 [] ["dl"] "9.0"
          ((fun (_ : FPath) => (none : Option Nat)) eFive.source) fsFive eFive).chunkBytes).drop 1)
      = [0, 5]
    rw [hcb]
    norm_num [List.scanl]
  refine ⟨rfl, ?_, by decide⟩
  rw [hbt]
  right
  exact List.mem_singleton.mpr rfl

/-- C9 (amended): the transferred-byte counter starts at 0, never decreases
(every value it ever takes lies between 0 and its final value), and each
queue entry adds at most the actual byte length of its source file; the
counter tracks actual source bytes, not the manifest-declared sizes, and no
clamping is applied. -/
theorem C9_bytes (digest : List Nat → String) (files : List FileInfo) (df : FPath)
    (mt : String) (faults : FPath → Option Nat) (frd : Nat) (srd : Int) (fs₀ : FS)
    (queue : List QueueEntry) (fs2 : FS) (e : QueueEntry) (src : SrcFile)
    (h : fs2 e.source = FileEntry.readable src) :
    (∀ v ∈ (process_queue digest files df mt faults frd srd fs₀ queue).byteTrace,
        0 ≤ v ∧ v ≤ (process_queue digest files df mt faults frd srd fs₀ queue).downloaded)
  ∧ ∀ fault : Option Nat,
      ((processEntry digest files df mt fault fs2 e).chunkBytes.map Int.ofNat).sum
        ≤ Int.ofNat src.content.length := by
  constructor
  · intro v hv
    refine processLoop_byteTrace_bound digest files df mt faults queue
      ⟨fs₀, 0, [], [0], [fs₀]⟩ ?_ (le_refl 0) v hv
    intro w hw
    have hw0 : w = 0 := List.mem_singleton.mp hw
    subst hw0
    exact ⟨le_refl 0, le_refl 0⟩
  · intro fault
    rw [processEntry_chunkBytes digest files df mt fault fs2 e src h, map_ofNat_sum]
    exact Int.ofNat_le.mpr (writtenChunks_sum_le fault src.content)

/-- Witness for C9 at an empty queue and a one-byte source entry. -/
theorem C9_bytes_witness :
    ((0:Int) ≤ 0
      ∧ (0:Int) ≤ (process_queue dig0 [] ["dl"] "t" (fun _ => none) 0 0 fsEmpty []).downloaded)
  ∧ ((processEntry dig0 [] ["dl"] "t" none fsOne
        ⟨["x"], ["dl", "x"], 1⟩).chunkBytes.map Int.ofNat).sum
      ≤ Int.ofNat (SrcFile.mk [5] "9.0").content.length := by
  have h := C9_bytes dig0 [] ["dl"] "t" (fun _ => none) 0 0 fsEmpty [] fsOne
    ⟨["x"], ["dl", "x"], 1⟩ ⟨[5], "9.0"⟩ (by rfl)
  exact ⟨h.1 0 (show (0:Int) ∈ [(0:Int)] from List.mem_singleton.mpr rfl), h.2 none⟩

/-- A source file of 1048577 bytes: one full 1MB chunk plus one byte. -/
def srcBig : SrcFile := ⟨List.replicate 1048577 7, "5.0"⟩

/-- A filesystem holding only srcBig at s/a. -/
def fsBig : FS := fun p => if p = ["s", "a"] then FileEntry.readable srcBig else FileEntry.absent

/-- The queue entry streaming srcBig to dl/a. -/
def eBig : QueueEntry := ⟨["s", "a"], ["dl", "a"], 1048577⟩

/-- C1 fails as stated: bytes are streamed directly to the final destination
path, so mid-copy the destination observably holds a 1048576-byte partial
file that is neither the previous state (no file) nor the complete new
1048577-byte file; no temporary path or atomic rename exists. -/
theorem C1_counterexample :
    fsBig ["dl", "a"] = FileEntry.absent
  ∧ ((process_queue dig0 [] ["dl"] "9.0" (fun _ => none) 0 0 fsBig [eBig]).fsTrace.get? 2).map
        (fun g => g ["dl", "a"])
      = some (FileEntry.readable ⟨List.replicate 1048576 7, "9.0"⟩)
  ∧ (⟨List.replicate 1048576 7, "9.0"⟩ : SrcFile) ≠ ⟨srcBig.content, "9.0"⟩
  ∧ FileEntry.readable ⟨List.replicate 1048576 7, "9.0"⟩ ≠ FileEntry.absent := by
  have hne : srcBig.content ≠ [] := by
    show List.replicate 1048577 7 ≠ []
    intro hcontra
    have hl := congrArg List.length hcontra
    rw [List.length_replicate] at hl
    norm_num at hl
  have h1 : srcBig.content.take chunk_size = List.replicate 1048576 7 := by
    show (List.replicate 1048577 7).take chunk_size = _
    rw [List.take_replicate]
    rw [show min chunk_size 1048577 = 1048576 from by norm_num [chunk_size]]
  have h2 : srcBig.content.drop chunk_size = [7] := by
    show (List.replicate 1048577 7).drop chunk_size = _
    rw [List.drop_replicate]
    rw [show (1048577 - chunk_size) = 1 from by norm_num [chunk_size]]
    rfl
  have hch : copyChunks srcBig.content = [List.replicate 1048576 7, [7]] := by
    rw [copyChunks_cons _ hne, h1, h2, copyChunks_small [7] (by decide) (by decide)]
  have hsteps : (processEntry dig0 [] ["dl"] "9.0"
        ((fun (_ : FPath) => (none : Option Nat)) eBig.source) fsBig eBig).fsSteps
      = [fsWrite fsBig ["dl", "a"] ⟨[], "9.0"⟩,
         fsWrite fsBig ["dl", "a"] ⟨List.replicate 1048576 7, "9.0"⟩,
         fsWrite fsBig ["dl", "a"] ⟨List.replicate 1048576 7 ++ [7], "9.0"⟩] := by
    rw [processEntry_fsSteps _ _ _ _ _ _ _ srcBig rfl]
    show ((List.scanl (fun acc ch => acc ++ ch) [] (copyChunks srcBig.content)).map
        (fun c => fsWrite fsBig eBig.destination ⟨c, "9.0"⟩)) = _
    rw [hch, List.scanl_cons, List.scanl_cons, List.scanl_nil]
    rfl
  have hget : (process_queue dig0 [] ["dl"] "9.0"
        (fun _ => none) 0 0 fsBig [eBig]).fsTrace.get? 2
      = some (fsWrite fsBig ["dl", "a"] ⟨List.replicate 1048576 7, "9.0"⟩) := by
    show ([fsBig] ++ (processEntry dig0 [] ["dl"] "9.0"
          ((fun (_ : FPath) => (none : Option Nat)) eBig.source) fsBig eBig).fsSteps
        ++ [(processEntry dig0 [] ["dl"] "9.0"
          ((fun (_ : FPath) => (none : Option Nat)) eBig.source) fsBig eBig).fs]).get? 2 = _
    rw [hsteps]
    rfl
  refine ⟨rfl, ?_, ?_, fun hcontra => FileEntry.noConfusion hcontra⟩
  · rw [hget]
    show some (fsWrite fsBig ["dl", "a"] ⟨List.replicate 1048576 7, "9.0"⟩ ["dl", "a"]) = _
    rw [show fsWrite fsBig ["dl", "a"] ⟨List.replicate 1048576 7, "9.0"⟩ ["dl", "a"]
        = FileEntry.readable ⟨List.replicate 1048576 7, "9.0"⟩ from by
      unfold fsWrite
      rw [if_pos rfl]]
  · intro hcontra
    have hc : (List.replicate 1048576 7).length = srcBig.content.length :=
      congrArg (fun f : SrcFile => f.content.length) hcontra
    rw [List.length_replicate, show srcBig.content = List.replicate 1048577 7 from rfl,
      List.length_replicate] at hc
    norm_num at hc

/-- C1 (amended): there is no temporary file and no rename — bytes are
streamed directly to the final destination path, so every mid-copy state
shows a prefix of the new content at the destination; only when the entry
finishes is the destination complete again: the full source content (with a
fresh mtime) when the entry commits, and nothing at all after either
deleting failure mode. -/
theorem C1_direct_write (digest : List Nat → String) (files : List FileInfo) (df : FPath)
    (mt : String) (fault : Option Nat) (fs : FS) (e : QueueEntry) (src : SrcFile)
    (h : fs e.source = FileEntry.readable src) :
    ((processEntry digest files df mt fault fs e).result = EntryResult.committed →
      (processEntry digest files df mt fault fs e).fs e.destination
        = FileEntry.readable ⟨src.content, mt⟩)
  ∧ ∀ g ∈ (processEntry digest files df mt fault fs e).fsSteps,
      ∃ k, g e.destination = FileEntry.readable ⟨src.content.take k, mt⟩ := by
  constructor
  · intro hres
    by_cases hcf : copyFails fault (copyChunks src.content) = true
    · exfalso
      simp only [processEntry, h, hcf, if_true] at hres
      exact absurd hres (by simp)
    · have hcf2 : copyFails fault (copyChunks src.content) = false := by
        cases hx : copyFails fault (copyChunks src.content)
        · rfl
        · exact absurd hx hcf
      by_cases hv : some (Main.calculate_fast_hash digest
            (fsWrite fs e.destination ⟨src.content, mt⟩) e.destination)
          ≠ (files.find? (fun fi =>
              fi.path == relative_to e.destination df)).map FileInfo.hash
      · have hbad := (processEntry_verifyFailed digest files df mt fault fs e src h hcf2 hv).1
        rw [hbad] at hres
        exact absurd hres (by simp)
      · have hv2 := not_not.mp hv
        exact (processEntry_committed digest files df mt fault fs e src h hcf2 hv2).2
  · intro g hg
    rw [processEntry_fsSteps digest files df mt fault fs e src h] at hg
    rcases List.mem_map.mp hg with ⟨c, hc, rfl⟩
    rcases mem_scanl_append _ _ _ hc with ⟨i, rfl⟩
    rcases writtenChunks_mem_take fault src.content i with ⟨k, hk⟩
    refine ⟨k, ?_⟩
    rw [show fsWrite fs e.destination
        ⟨[] ++ ((writtenChunks fault (copyChunks src.content)).take i).flatten, mt⟩ e.destination
        = FileEntry.readable
            ⟨[] ++ ((writtenChunks fault (copyChunks src.content)).take i).flatten, mt⟩
      from by simp [fsWrite]]
    rw [List.nil_append, hk]

/-- A one-byte readable source file whose mtime string is "4.0". -/
def srcOne : SrcFile := ⟨[9], "4.0"⟩

/-- A filesystem holding only srcOne at sf/a. -/
def fsWsrc : FS := fun p => if p = ["sf", "a"] then FileEntry.readable srcOne else FileEntry.absent

/-- A manifest record fingerprinting srcOne exactly. -/
def recW : FileInfo := ⟨["a"], digA (fastHashData srcOne), 1⟩

/-- The queue entry copying sf/a to dl/a. -/
def eW : QueueEntry := ⟨["sf", "a"], ["dl", "a"], 1⟩

/-- Witness for C1 at a concrete committed entry (the destination mtime
happens to match the source's, so verification passes). -/
theorem C1_direct_write_witness :
    (processEntry digA [recW] ["dl"] "4.0" none fsWsrc eW).fs ["dl", "a"]
      = FileEntry.readable ⟨srcOne.content, "4.0"⟩ := by
  have h := (C1_direct_write digA [recW] ["dl"] "4.0" none fsWsrc eW srcOne rfl).1
  apply h
  exact (processEntry_committed digA [recW] ["dl"] "4.0" none fsWsrc eW srcOne rfl rfl rfl).1

/-- C2 fails on the code (code bug): a source whose bytes, size and mtime
exactly match its manifest record is copied, but the freshly written
destination carries a new mtime, so the post-transfer fingerprint (which
includes the destination's mtime) differs from the record's fingerprint —
the entry ends verify-failed and the destination file is deleted, never
committed. Here the abstract digest is instantiated with an injective
function, standing in for the collision-free 256-bit hash. -/
theorem C2_mtime_bug :
    recC2.hash = digA (fastHashData srcC2)
  ∧ (process_queue digA [recC2] ["dl"] "200.0" (fun _ => none) 1 3 fsC2 [eC2]).results
      = [EntryResult.verifyFailed]
  ∧ (process_queue digA [recC2] ["dl"] "200.0" (fun _ => none) 1 3 fsC2 [eC2]).fs ["dl", "a"]
      = FileEntry.absent := by
  have hneq : digA (fastHashData ⟨[1, 2, 3], "200.0"⟩) ≠ digA (fastHashData srcC2) := by
    rw [fastHashData_small ⟨[1, 2, 3], "200.0"⟩ (by decide), fastHashData_small srcC2 (by decide)]
    decide
  have hv : some (Main.calculate_fast_hash digA
        (fsWrite fsC2 eC2.destination ⟨srcC2.content, "200.0"⟩) eC2.destination)
      ≠ ([recC2].find? (fun fi =>
          fi.path == relative_to eC2.destination ["dl"])).map FileInfo.hash := by
    have hw : fsWrite fsC2 eC2.destination ⟨srcC2.content, "200.0"⟩ eC2.destination
        = FileEntry.readable ⟨[1, 2, 3], "200.0"⟩ := by
      simp [fsWrite, srcC2]
    rw [calculate_fast_hash_readable digA _ _ _ hw]
    have hfind : ([recC2].find? (fun fi =>
          fi.path == relative_to eC2.destination ["dl"])).map FileInfo.hash
        = some (digA (fastHashData srcC2)) := rfl
    rw [hfind]
    simp only [ne_eq, Option.some.injEq]
    exact hneq
  have hpe := processEntry_verifyFailed digA [recC2] ["dl"] "200.0" none fsC2 eC2 srcC2 rfl rfl hv
  have hsingle := process_queue_single digA [recC2] ["dl"] "200.0" (fun _ => none) 1 3 fsC2 eC2
  refine ⟨rfl, ?_, ?_⟩
  · rw [hsingle.1, hpe.1]
  · rw [hsingle.2]
    exact hpe.2

end G2O
